import Mathlib

/-!
A verification development for the nodereaper deletion scheduler.

The definitions below are shallow embeddings of the Go sources:
  * `pkg/deletion` (package `deletion`): the per-group deletion state
    machine (`State`, `NodeState`, `Group`, `Group.advance`) and the
    orchestrator fragments (`nodeGroupKey`, `WantToDelete`,
    `totallyIgnore`, snapshot adoption and purging).
  * `pkg/cron` (package `cron`): `Schedule`, `Schedule.Matches`,
    `dayMatches`.
  * `pkg/config`: `ParseDuration`.

Go machine integers are modelled as `Nat`/`Int` (the uint64 cron bitsets
always stay below `2 ^ 64`; durations are int64 nanoseconds and the
explicit range checks of the Go library are kept where they matter).
Go maps are modelled as lists (a fixed linearization of the map; Go map
iteration order is unspecified, so each theorem proved for every
transition function over this linearization reflects the per-order
behaviour of the source).  Functions that can panic return `Option`.
-/

namespace NodeReaper

/-- `State` from pkg/deletion: the stages of the deletion process. -/
inductive State where
  | dontWantDelete
  | wantDelete
  | detached
  | readyToDelete
  | deleting
  deriving DecidableEq, Repr

/-- `NodeState` from pkg/deletion: deletion state of a single node. -/
structure NodeState where
  name : String
  state : State
  neverDelete : Bool
  deriving DecidableEq, Repr

/-- `StateTransitionFunction` from pkg/deletion: attempts to move a node
from `oldState` to `newState`; `true` means the transition was accepted.
(The Go error component is only logged, so it is dropped here.) -/
abbrev STF := String → State → State → Bool

/-- `NodeState.changeState` from pkg/deletion: ask `f`, and update the
state only when the transition is accepted. -/
def tryChange (f : STF) (n : NodeState) (tgt : State) : NodeState :=
  if f n.name n.state tgt then { n with state := tgt } else n

/-- One unbudgeted pass of `Group.Advance`: for every iterable node in
state `src`, attempt the move to `tgt` (the DontWantDelete→WantDelete and
ReadyToDelete→Deleting loops). -/
def passAll (f : STF) (it : NodeState → Bool) (src tgt : State)
    (ns : List NodeState) : List NodeState :=
  ns.map fun n => if it n && n.state == src then tryChange f n tgt else n

/-- One budgeted pass of `Group.Advance`: like `passAll` but stop as soon
as the budget `k` is exhausted, decrementing `k` on every accepted
transition (the Detached→ReadyToDelete, WantDelete→ReadyToDelete and
WantDelete→Detached loops; the detach loop's `== 0` break is equivalent
to `≤ 0` because its budget is clamped to be non-negative first). -/
def passBudget (f : STF) (it : NodeState → Bool) (src tgt : State) :
    List NodeState → Int → List NodeState × Int
  | [], k => ([], k)
  | n :: ns, k =>
    if k ≤ 0 then (n :: ns, k)
    else if it n && n.state == src then
      if f n.name n.state tgt then
        let r := passBudget f it src tgt ns (k - 1)
        ({ n with state := tgt } :: r.1, r.2)
      else
        let r := passBudget f it src tgt ns k
        (n :: r.1, r.2)
    else
      let r := passBudget f it src tgt ns k
      (n :: r.1, r.2)

/-- The cron `Schedule` from pkg/cron: one uint64 bitset per field,
modelled as `Nat` (every value is below `2 ^ 64`). -/
structure Schedule where
  second : Nat
  minute : Nat
  hour : Nat
  dom : Nat
  month : Nat
  dow : Nat
  deriving DecidableEq, Repr

/-- `Group` from pkg/deletion.  `Nodes` and `PriorityNodes` are Go maps,
modelled as lists (see the header comment). -/
structure Group where
  name : String
  key : String
  isReal : Bool
  maxSurge : Int
  maxUnavailable : Int
  deletionSchedule : Option Schedule
  numDesired : Int
  nodes : List NodeState
  priorityNodes : List String
  deriving DecidableEq, Repr

/-- `Group.stateCount` from pkg/deletion: the number of nodes whose state
is one of `states`. -/
def stateCount (states : List State) (ns : List NodeState) : Nat :=
  (ns.filter fun n => states.contains n.state).length

/-- Whether `Group.iterateNodes` runs in priority mode: some priority
name refers to a present node that is not neverDelete. -/
def Group.priorityActive (g : Group) : Bool :=
  g.nodes.any fun n => g.priorityNodes.contains n.name && !n.neverDelete

/-- Whether a node of `g` is returned by `Group.iterateNodes`: in
priority mode only named, non-neverDelete nodes; otherwise every
non-neverDelete node.  (Membership does not depend on the node's state,
so one predicate serves all five passes of an advance.) -/
def Group.iterable (g : Group) (n : NodeState) : Bool :=
  if g.priorityActive then g.priorityNodes.contains n.name && !n.neverDelete
  else !n.neverDelete

/-- The pruning `iterateNodes` performs on `PriorityNodes`: names that
are absent from the group or refer to a neverDelete node are deleted. -/
def prunePriority (g : Group) : List String :=
  g.priorityNodes.filter fun name =>
    g.nodes.any fun n => n.name == name && !n.neverDelete

/-- The star sentinel bit of pkg/cron: set iff the field was written as
a star. -/
def starBit : Nat := 2 ^ 63

/-- A UTC instant, carrying exactly the projections of Go's `time.Time`
that `Schedule.Matches` consumes.  The weekday is computed from the
civil date below, as Go does internally. -/
structure Instant where
  year : Nat
  month : Nat
  day : Nat
  hour : Nat
  minute : Nat
  second : Nat
  deriving DecidableEq, Repr

/-- The weekday of a civil date, with Sunday = 0 as in Go's
`time.Weekday` (days-from-civil-epoch computation; 0000-03-01 was a
Wednesday). -/
def weekday (y m d : Nat) : Nat :=
  let yAdj := if m ≤ 2 then y - 1 else y
  let era := yAdj / 400
  let yoe := yAdj % 400
  let mp := (m + 9) % 12
  let doy := (153 * mp + 2) / 5 + (d - 1)
  let doe := yoe * 365 + yoe / 4 - yoe / 100 + doy
  (era * 146097 + doe + 3) % 7

/-- `dayMatches` from pkg/cron: day-of-month and day-of-week must both
match when either field carries the star bit, otherwise one suffices. -/
def dayMatches (s : Schedule) (t : Instant) : Bool :=
  let domMatch := (2 ^ t.day &&& s.dom) != 0
  let dowMatch := (2 ^ weekday t.year t.month t.day &&& s.dow) != 0
  if (s.dom &&& starBit) != 0 || (s.dow &&& starBit) != 0 then
    domMatch && dowMatch
  else
    domMatch || dowMatch

/-- `Schedule.Matches` from pkg/cron. -/
def Schedule.Matches (s : Schedule) (t : Instant) : Bool :=
  ((2 ^ t.month &&& s.month) != 0) && dayMatches s t &&
    ((2 ^ t.hour &&& s.hour) != 0) && ((2 ^ t.minute &&& s.minute) != 0) &&
    ((2 ^ t.second &&& s.second) != 0)

/-- `scheduleAllowsDeletion` from `Group.Advance`: no schedule, or the
schedule matches the current UTC time. -/
def Group.scheduleAllows (g : Group) (now : Instant) : Bool :=
  match g.deletionSchedule with
  | none => true
  | some s => s.Matches now

/-- The first loop of `Group.Advance`: DontWantDelete → WantDelete. -/
def afterWantPass (f : STF) (it : NodeState → Bool)
    (ns : List NodeState) : List NodeState :=
  passAll f it .dontWantDelete .wantDelete ns

/-- `numCanBeDeleted` from `Group.Advance`:
`size − count({ReadyToDelete, Deleting}) − numDesired + maxUnavailable`. -/
def deletionBudget (numDesired maxUnavailable : Int) (ns : List NodeState) : Int :=
  (ns.length : Int) - (stateCount [.readyToDelete, .deleting] ns : Int)
    - numDesired + maxUnavailable

/-- The two budgeted admission loops of `Group.Advance`:
Detached → ReadyToDelete, then (cron permitting)
WantDelete → ReadyToDelete, sharing the budget `k`. -/
def afterReadyPasses (f : STF) (it : NodeState → Bool) (sched : Bool)
    (ns : List NodeState) (k : Int) : List NodeState × Int :=
  if sched then
    passBudget f it .wantDelete .readyToDelete
      (passBudget f it .detached .readyToDelete ns k).1
      (passBudget f it .detached .readyToDelete ns k).2
  else passBudget f it .detached .readyToDelete ns k

/-- `numCanBeDetached` from `Group.Advance`:
`maxSurge − count({Detached, ReadyToDelete, Deleting})`, clamped at 0. -/
def detachBudget (maxSurge : Int) (ns : List NodeState) : Int :=
  max 0 (maxSurge - (stateCount [.detached, .readyToDelete, .deleting] ns : Int))

/-- The final loop of `Group.Advance` (cron permitting):
WantDelete → Detached, bounded by `detachBudget`. -/
def afterDetachPass (f : STF) (it : NodeState → Bool) (sched : Bool)
    (maxSurge : Int) (ns : List NodeState) : List NodeState :=
  if sched then (passBudget f it .wantDelete .detached ns (detachBudget maxSurge ns)).1
  else ns

/-- The node-list transformation performed by one `Group.Advance`, in the
source's order: want pass; budget computation; the two ReadyToDelete
admission passes; ReadyToDelete → Deleting; detach pass. -/
def advanceNodes (f : STF) (it : NodeState → Bool)
    (numDesired maxUnavailable maxSurge : Int) (sched : Bool)
    (ns0 : List NodeState) : List NodeState :=
  afterDetachPass f it sched maxSurge
    (passAll f it .readyToDelete .deleting
      (afterReadyPasses f it sched (afterWantPass f it ns0)
        (deletionBudget numDesired maxUnavailable (afterWantPass f it ns0))).1)

/-- `Group.Advance` from pkg/deletion: one pass over the group at UTC
time `now`, with effector `f`.  `iterateNodes` is recomputed by the Go
code at every loop, but its membership does not depend on node states,
so a single predicate (and a single pruning of `PriorityNodes`) is
faithful. -/
def Group.advance (f : STF) (now : Instant) (g : Group) : Group :=
  { g with
    nodes := advanceNodes f g.iterable g.numDesired g.maxUnavailable g.maxSurge
      (g.scheduleAllows now) g.nodes
    priorityNodes := prunePriority g }

/-- Count the nodes whose state satisfies `c` (abstract form of
`stateCount`). -/
def countB (c : State → Bool) (ns : List NodeState) : Nat :=
  (ns.filter fun n => c n.state).length

/-- `Untouched q l l'`: the pass turning `l` into `l'` left every node
satisfying `q` exactly in place. -/
def Untouched (q : NodeState → Bool) (l l' : List NodeState) : Prop :=
  l.length = l'.length ∧
    ∀ i (h : i < l.length) (h2 : i < l'.length),
      q (l.get ⟨i, h⟩) = true → l'.get ⟨i, h2⟩ = l.get ⟨i, h⟩

/-- Membership in the surge set {Detached, ReadyToDelete, Deleting}. -/
def inS (st : State) : Bool :=
  [State.detached, State.readyToDelete, State.deleting].contains st

/-- Membership in the deletion-in-flight set {ReadyToDelete, Deleting}. -/
def inR (st : State) : Bool :=
  [State.readyToDelete, State.deleting].contains st

/-- Bits `lo` through `hi` set (the bitset a cron range `lo-hi` denotes). -/
def rangeBits (lo hi : Nat) : Nat := 2 ^ (hi + 1) - 2 ^ lo

/-- Modelled from the spec: `ParseStandard` is not under src (only its
tests and `Schedule.Matches` are), so this is the `Schedule` that parsing
`* 18-20 * * 0,6` produces per §4.1 — each field a bitset over its
range, with the sentinel `starBit` marking star fields.  The seconds
field is not part of the five-field expression; the repository's tests
(`TestMinues`, which matches at second 19) force it to behave as a
star. -/
def scheduleWeekendNights : Schedule :=
  { second := rangeBits 0 59 ||| starBit
    minute := rangeBits 0 59 ||| starBit
    hour := rangeBits 18 20
    dom := rangeBits 1 31 ||| starBit
    month := rangeBits 1 12 ||| starBit
    dow := 2 ^ 0 ||| 2 ^ 6 }

/-- An effector that accepts every transition (a provider whose calls
all succeed and a policy that wants every node deleted). -/
def fTrue : STF := fun _ _ _ => true

/-- An effector that accepts no transition. -/
def fFalse : STF := fun _ _ _ => false

/-- An effector that accepts exactly Detached → ReadyToDelete. -/
def fDetachedReady : STF := fun _ old new =>
  old == State.detached && new == State.readyToDelete

/-- Saturday 2021-03-06 12:00:00 UTC (outside the 18-20 window of
`scheduleWeekendNights`). -/
def now0 : Instant := ⟨2021, 3, 6, 12, 0, 0⟩

/-- A real group of three surplus WantDelete nodes: desired size 1,
`maxSurge` 1, `maxUnavailable` 0 and no schedule.  (Reached, e.g., after
a scale-down leaves three policy-condemned nodes behind.) -/
def surgeCxGroup : Group :=
  { name := "g", key := "___ig___g", isReal := true, maxSurge := 1
    maxUnavailable := 0, deletionSchedule := none, numDesired := 1
    nodes := [⟨"n1", .wantDelete, false⟩, ⟨"n2", .wantDelete, false⟩,
              ⟨"n3", .wantDelete, false⟩]
    priorityNodes := [] }

/-- A real group still scaling up: desired size 10 but only one node. -/
def underProvisionedGroup : Group :=
  { name := "g", key := "___ig___g", isReal := true, maxSurge := 1
    maxUnavailable := 0, deletionSchedule := none, numDesired := 10
    nodes := [⟨"n1", .dontWantDelete, false⟩]
    priorityNodes := [] }

/-- A group holding one node that was adopted in state Detached from the
persisted snapshot and is marked neverDelete this tick. -/
def neverDeleteCxGroup : Group :=
  { name := "g", key := "___ig___g", isReal := true, maxSurge := 1
    maxUnavailable := 0, deletionSchedule := none, numDesired := 1
    nodes := [⟨"n1", .detached, true⟩]
    priorityNodes := [] }

/-- A group whose priority set holds one name that no present node
bears. -/
def ghostPriorityGroup : Group :=
  { name := "g", key := "___ig___g", isReal := true, maxSurge := 1
    maxUnavailable := 0, deletionSchedule := none, numDesired := 1
    nodes := [⟨"n1", .dontWantDelete, false⟩]
    priorityNodes := ["ghost"] }

/-- A group with a live priority node and a bystander. -/
def selfPriorityGroup : Group :=
  { name := "g", key := "___ig___g", isReal := true, maxSurge := 1
    maxUnavailable := 0, deletionSchedule := none, numDesired := 1
    nodes := [⟨"a", .dontWantDelete, false⟩, ⟨"b", .dontWantDelete, false⟩]
    priorityNodes := ["a"] }

/-- A group gated by `scheduleWeekendNights` holding one Detached and one
WantDelete node. -/
def scheduleCxGroup : Group :=
  { name := "g", key := "___ig___g", isReal := true, maxSurge := 2
    maxUnavailable := 2, deletionSchedule := some scheduleWeekendNights
    numDesired := 1
    nodes := [⟨"d1", .detached, false⟩, ⟨"w1", .wantDelete, false⟩]
    priorityNodes := [] }

/-- A cluster node, carrying exactly the `core_v1.Node` fields the
deleter reads: name, labels, creation timestamp (int64 nanoseconds since
the epoch) and status conditions as (type, status) pairs. -/
structure K8sNode where
  name : String
  labels : List (String × String)
  creationTimestamp : Int
  conditions : List (String × String)
  deriving DecidableEq, Repr

/-- A Go map read `node.Labels[k]`: absent keys yield the empty
string. -/
def K8sNode.label (n : K8sNode) (k : String) : String :=
  (n.labels.lookup k).getD ""

/-- The deleter options consumed by the embedded fragments.  The
per-group configuration getters (`GetString`, `GetBool`, `GetDuration`
resolving group, then global, then default scope) are abstracted as
functions of the group name, exactly as the deleter invokes them;
durations are int64 nanoseconds. -/
structure Opts where
  instanceGroupLabel : String
  requestDeletionLabel : String
  deletionAge : String → Option Int
  deletionAgeJitter : String → Option Int
  deleteOldLaunchConfig : String → Bool
  startupGracePeriod : String → Option Int

/-- `Deleter.nodeGroupKey` from pkg/deletion: `___nogroup___` when the
instance-group label is empty, else `___ig___` + label. -/
def nodeGroupKey (opts : Opts) (node : K8sNode) : String :=
  if node.label opts.instanceGroupLabel = "" then "___nogroup___"
  else "___ig___" ++ node.label opts.instanceGroupLabel

/-- Modelled from the spec: `metrics.VeryHighFalseDesiredSize` is
referenced by `pollDeletions` but not defined under src; the spec calls
it a sentinel high value that keeps the surge math from ever
authorizing deletion for groups of unknown size.  No theorem below
depends on the numeral. -/
def veryHighFalseDesiredSize : Int := 10000000

/-- The group record `pollDeletions` creates on first sighting of a
group key (deletion.go lines 109-124): `maxSurge` 1, `maxUnavailable` 0,
sentinel desired size except for the `___master___` key, which gets 3. -/
def mkNewGroup (opts : Opts) (node : K8sNode) (groupKey : String) : Group :=
  { name := node.label opts.instanceGroupLabel
    key := groupKey
    isReal := groupKey == "___ig___" ++ node.label opts.instanceGroupLabel
    maxSurge := 1
    maxUnavailable := 0
    deletionSchedule := none
    numDesired := if groupKey = "___master___" then 3 else veryHighFalseDesiredSize
    nodes := []
    priorityNodes := [] }

/-- FNV-1a (32 bit) as `hash/fnv.New32a` computes it, over the UTF-8
bytes of the name.  Node names are DNS-1123 (ASCII), where the UTF-8
bytes coincide with the code points, so the fold runs over
`String.data`. -/
def fnv1a32 (s : String) : Nat :=
  (s.data.map Char.toNat).foldl (fun h b => ((h ^^^ b) * 16777619) % 2 ^ 32) 2166136261

/-- The request-deletion-label check of `WantToDelete`: the option is
set and some label key equals it. -/
def hasRequestLabel (opts : Opts) (node : K8sNode) : Bool :=
  opts.requestDeletionLabel != "" &&
    node.labels.any fun p => p.1 == opts.requestDeletionLabel

/-- The age check of `WantToDelete`: `deletionAge` is configured for the
node's group and `now` is strictly past
`creationTimestamp + deletionAge + jitter`, where
`jitter = (fnv1a32(name) mod 100) · deletionAgeJitter / 100`
(int64 division truncating toward zero; 0 without `deletionAgeJitter`). -/
def deletionAgeTriggered (opts : Opts) (now : Int) (node : K8sNode) : Bool :=
  match opts.deletionAge (node.label opts.instanceGroupLabel) with
  | none => false
  | some age =>
    let jitter : Int :=
      match opts.deletionAgeJitter (node.label opts.instanceGroupLabel) with
      | none => 0
      | some maxAfter => Int.tdiv (((fnv1a32 node.name % 100 : Nat) : Int) * maxAfter) 100
    decide (now > node.creationTimestamp + age + jitter)

/-- `Deleter.WantToDelete` from pkg/deletion.  The provider call
`OutdatedLaunchConfig` is passed in as `outdated`; `Except.error`
represents a provider error, which the Go code only logs (falling
through to the no-deletion result). -/
def wantToDelete (opts : Opts) (outdated : K8sNode → Except Unit Bool)
    (now : Int) (node : K8sNode) : Bool × String :=
  if hasRequestLabel opts node then (true, "has_deletion_label")
  else if deletionAgeTriggered opts now node then (true, "too_old")
  else if opts.deleteOldLaunchConfig (node.label opts.instanceGroupLabel) then
    match outdated node with
    | .ok true => (true, "configuration_changed")
    | _ => (false, "")
  else (false, "")

/-- A node carrying the control-plane role label and no instance-group
label. -/
def masterNode : K8sNode :=
  { name := "m1", labels := [("kubernetes.io/role", "master")]
    creationTimestamp := 0, conditions := [("Ready", "True")] }

/-- A minimal options record. -/
def opts0 : Opts :=
  { instanceGroupLabel := "wish.com/instance-group"
    requestDeletionLabel := ""
    deletionAge := fun _ => none
    deletionAgeJitter := fun _ => none
    deleteOldLaunchConfig := fun _ => false
    startupGracePeriod := fun _ => none }

def optsC8 : Opts :=
  { instanceGroupLabel := "wish.com/instance-group"
    requestDeletionLabel := "wish.com/please-delete"
    deletionAge := fun _ => some 86400000000000
    deletionAgeJitter := fun _ => some 100
    deleteOldLaunchConfig := fun _ => true
    startupGracePeriod := fun _ => none }

/-- A worker node created at time 0; `fnv1a32 "node-1" mod 100 = 87`,
so with `deletionAgeJitter = 100` its jitter is 87 ns. -/
def agedNode : K8sNode :=
  { name := "node-1", labels := [("wish.com/instance-group", "workers")]
    creationTimestamp := 0, conditions := [("Ready", "True")] }

def labeledNode : K8sNode :=
  { name := "node-2"
    labels := [("wish.com/please-delete", "true"),
               ("wish.com/instance-group", "workers")]
    creationTimestamp := 0, conditions := [("Ready", "True")] }

/-- `Deleter.totallyIgnore` from pkg/deletion: the node is younger than
the group's `startupGracePeriod`, or its `Ready` condition is not
`True`. -/
def totallyIgnore (opts : Opts) (now : Int) (node : K8sNode) : Bool :=
  (match opts.startupGracePeriod (node.label opts.instanceGroupLabel) with
    | some gp => decide (now < node.creationTimestamp + gp)
    | none => false)
  || !(node.conditions.any fun c => c.1 == "Ready" && c.2 == "True")

/-- The state a new node record receives (deletion.go lines 126-134):
the state persisted in the snapshot under its name if any, else
DontWantDelete. -/
def adoptState (snapshot : List (String × State)) (name : String) : State :=
  (snapshot.lookup name).getD State.dontWantDelete

def hasGroup (gs : List Group) (key : String) : Bool :=
  gs.any fun g => g.key == key

def hasNodeRecord (g : Group) (name : String) : Bool :=
  g.nodes.any fun n => n.name == name

/-- One iteration of the inventory loop of `pollDeletions` (lines
103-136) for a node that is not totally ignored: create the group on
first sighting of its key, then create the node record (with the
adopted state) if the group does not already hold one. -/
def ingestOne (opts : Opts) (snapshot : List (String × State))
    (gs : List Group) (node : K8sNode) : List Group :=
  let key := nodeGroupKey opts node
  (if hasGroup gs key then gs else gs ++ [mkNewGroup opts node key]).map
    fun g =>
      if g.key == key && !(hasNodeRecord g node.name) then
        { g with nodes := g.nodes ++ [⟨node.name, adoptState snapshot node.name, false⟩] }
      else g

/-- The whole inventory loop: totally-ignored nodes are skipped. -/
def ingest (opts : Opts) (now : Int) (snapshot : List (String × State))
    (gs : List Group) (inventory : List K8sNode) : List Group :=
  inventory.foldl
    (fun acc node =>
      if totallyIgnore opts now node then acc else ingestOne opts snapshot acc node)
    gs

/-- `allNodeNames` from `pollDeletions`: the names of the listed nodes
that are not totally ignored. -/
def allNodeNames (opts : Opts) (now : Int) (inventory : List K8sNode) : List String :=
  (inventory.filter fun n => !totallyIgnore opts now n).map K8sNode.name

/-- The purge loop of `pollDeletions` (lines 152-157): every in-memory
node whose name is not in `allNodeNames` is deleted from its group. -/
def purgeAbsent (names : List String) (gs : List Group) : List Group :=
  gs.map fun g => { g with nodes := g.nodes.filter fun n => names.contains n.name }

/-- The node-bookkeeping portion of one `pollDeletions` tick: ingest the
current inventory, then purge records for vanished nodes. -/
def syncNodes (opts : Opts) (now : Int) (snapshot : List (String × State))
    (gs : List Group) (inventory : List K8sNode) : List Group :=
  purgeAbsent (allNodeNames opts now inventory) (ingest opts now snapshot gs inventory)

/-- A ready worker node for the sync witness. -/
def readyNode : K8sNode :=
  { name := "n1", labels := [("wish.com/instance-group", "workers")]
    creationTimestamp := 0, conditions := [("Ready", "True")] }

/-- A persisted snapshot recording n1 in state Detached. -/
def snapshot0 : List (String × State) := [("n1", State.detached)]

def digitChar (d : Nat) : Char :=
  ['0', '1', '2', '3', '4', '5', '6', '7', '8', '9'].getD d '0'

/-- The value of a list of decimal digit characters. -/
def digitsVal (l : List Char) : Nat :=
  l.foldl (fun acc c => 10 * acc + (c.toNat - 48)) 0

/-- Modelled from the Go standard library: `strconv.ParseInt(s, 10, 64)`
on a byte string — optional sign, decimal digits, int64 range check;
`none` is a parse error. -/
def parseInt64 : List Char → Option Int
  | [] => none
  | c :: rest =>
    if c = '-' then
      if rest ≠ [] ∧ rest.all Char.isDigit ∧ digitsVal rest ≤ 2 ^ 63
      then some (-(digitsVal rest : Int)) else none
    else if c = '+' then
      if rest ≠ [] ∧ rest.all Char.isDigit ∧ digitsVal rest ≤ 2 ^ 63 - 1
      then some ((digitsVal rest : Int)) else none
    else
      if (c :: rest).all Char.isDigit ∧ digitsVal (c :: rest) ≤ 2 ^ 63 - 1
      then some ((digitsVal (c :: rest) : Int)) else none

/-- The decimal printing of a natural number (what `fmt.Sprintf("%vh", …)`
emits for a non-negative int64, before the `h`). -/
def natReprL (n : Nat) : List Char :=
  if _h : n < 10 then [digitChar n]
  else natReprL (n / 10) ++ [digitChar (n % 10)]
termination_by n
decreasing_by exact Nat.div_lt_self (by omega) (by omega)

def intReprL (v : Int) : List Char :=
  if v < 0 then '-' :: natReprL v.natAbs else natReprL v.toNat

def unitNanos (u : List Char) : Option Int :=
  if u = ['n', 's'] then some 1
  else if u = ['u', 's'] then some 1000
  else if u = ['m', 's'] then some 1000000
  else if u = ['s'] then some 1000000000
  else if u = ['m'] then some 60000000000
  else if u = ['h'] then some 3600000000000
  else none

/-- Modelled from the Go standard library: `time.ParseDuration`,
restricted to the single-component `[sign]digits unit` strings the
theorems below exercise (multi-component and fractional durations are
outside the model); the result is int64 nanoseconds, range-checked. -/
def timePDBody (neg : Bool) (body : List Char) : Except String Int :=
  if body.takeWhile Char.isDigit = [] then Except.error "time: invalid duration"
  else
    match unitNanos (body.dropWhile Char.isDigit) with
    | none => Except.error "time: unknown unit"
    | some mul =>
      if (digitsVal (body.takeWhile Char.isDigit) : Int) * mul ≤ 2 ^ 63 - 1 then
        if neg then Except.ok (-((digitsVal (body.takeWhile Char.isDigit) : Int) * mul))
        else Except.ok ((digitsVal (body.takeWhile Char.isDigit) : Int) * mul)
      else Except.error "time: invalid duration"

def timeParseDuration (l : List Char) : Except String Int :=
  match l with
  | [] => Except.error "time: invalid duration"
  | c :: rest =>
    timePDBody (c == '-') (if c = '-' ∨ c = '+' then rest else c :: rest)

/-- `config.ParseDuration` over the character list of its argument:
slice off a trailing `d`, parse the prefix as an integer count of days,
rewrite to `⟨n·24⟩h` and delegate to `time.ParseDuration`.  The `none`
result models the Go panic: the function's first operation slices
`duration[len(duration)-1:]`, whose lower bound is −1 for the empty
string (runtime panic, out of range). -/
def parseDurationAux (l : List Char) : Option (Except String Int) :=
  if l = [] then none
  else if l.getLast? = some 'd' then
    match parseInt64 l.dropLast with
    | none => some (Except.error "Error parsing as number of days")
    | some num => some (timeParseDuration (intReprL (num * 24) ++ ['h']))
  else some (timeParseDuration l)

/-- `config.ParseDuration` from pkg/config (Go slices bytes; all inputs
here are ASCII, where bytes and characters coincide). -/
def parseDuration (duration : String) : Option (Except String Int) :=
  parseDurationAux duration.data

theorem stateCount_eq_countB (st : List State) (ns : List NodeState) :
    stateCount st ns = countB (fun s => st.contains s) ns := rfl

theorem countB_cons (c : State → Bool) (n : NodeState) (ns : List NodeState) :
    countB c (n :: ns) = (if c n.state then 1 else 0) + countB c ns := by
  simp only [countB, List.filter_cons]
  split <;> simp [Nat.add_comm]

theorem passAll_length (f : STF) (it : NodeState → Bool) (src tgt : State)
    (ns : List NodeState) : (passAll f it src tgt ns).length = ns.length := by
  simp [passAll]

theorem countB_passAll (f : STF) (it : NodeState → Bool) (src tgt : State)
    (c : State → Bool) (h : c src = c tgt) (ns : List NodeState) :
    countB c (passAll f it src tgt ns) = countB c ns := by
  induction ns with
  | nil => rfl
  | cons n ns ih =>
    simp only [passAll, List.map_cons] at *
    rw [countB_cons, countB_cons, ih]
    congr 1
    split
    · rename_i hcond
      have hst : n.state = src := by
        have := (Bool.and_eq_true _ _).mp hcond
        exact eq_of_beq this.2
      unfold tryChange
      split
      · simp only [hst, h]
      · rfl
    · rfl

theorem passBudget_length (f : STF) (it : NodeState → Bool) (src tgt : State)
    (ns : List NodeState) (k : Int) :
    (passBudget f it src tgt ns k).1.length = ns.length := by
  induction ns generalizing k with
  | nil => rfl
  | cons n ns ih =>
    simp only [passBudget]
    split
    · rfl
    · split
      · split <;> simp [ih]
      · simp [ih]

theorem passBudget_k_le (f : STF) (it : NodeState → Bool) (src tgt : State)
    (ns : List NodeState) (k : Int) :
    (passBudget f it src tgt ns k).2 ≤ k := by
  induction ns generalizing k with
  | nil => exact le_refl k
  | cons n ns ih =>
    simp only [passBudget]
    split
    · exact le_refl k
    · split
      · split
        · simpa using le_trans (ih (k - 1)) (by omega)
        · simpa using ih k
      · simpa using ih k

theorem passBudget_k_nonneg (f : STF) (it : NodeState → Bool) (src tgt : State)
    (ns : List NodeState) (k : Int) (h : 0 ≤ k) :
    0 ≤ (passBudget f it src tgt ns k).2 := by
  induction ns generalizing k with
  | nil => exact h
  | cons n ns ih =>
    simp only [passBudget]
    split
    · exact h
    · rename_i hk
      split
      · split
        · simpa using ih (k - 1) (by omega)
        · simpa using ih k h
      · simpa using ih k h

theorem countB_passBudget_eq (f : STF) (it : NodeState → Bool) (src tgt : State)
    (c : State → Bool) (h : c src = c tgt) (ns : List NodeState) (k : Int) :
    countB c (passBudget f it src tgt ns k).1 = countB c ns := by
  induction ns generalizing k with
  | nil => rfl
  | cons n ns ih =>
    simp only [passBudget]
    split
    · rfl
    · split
      · rename_i hcond
        have hst : n.state = src := by
          have := (Bool.and_eq_true _ _).mp hcond
          exact eq_of_beq this.2
        split
        · simp only [countB_cons, ih]
          congr 1
          simp only [hst, h]
        · simp [countB_cons, ih]
      · simp [countB_cons, ih]

/-- The budget-count conservation law: when the pass moves nodes from
outside the counted set into it, the count grows by exactly the number
of budget units consumed. -/
theorem countB_passBudget_add (f : STF) (it : NodeState → Bool) (src tgt : State)
    (c : State → Bool) (hs : c src = false) (ht : c tgt = true)
    (ns : List NodeState) (k : Int) :
    (countB c (passBudget f it src tgt ns k).1 : Int)
      + (passBudget f it src tgt ns k).2 = (countB c ns : Int) + k := by
  induction ns generalizing k with
  | nil => rfl
  | cons n ns ih =>
    simp only [passBudget]
    split
    · rfl
    · split
      · rename_i hcond
        have hst : n.state = src := by
          have := (Bool.and_eq_true _ _).mp hcond
          exact eq_of_beq this.2
        split
        · have := ih (k - 1)
          simp only [countB_cons] at *
          simp only [ht, hst, hs, if_true, if_false] at *
          push_cast at *
          omega
        · have := ih k
          simp only [countB_cons] at *
          simp only [hst, hs, if_false] at *
          push_cast at *
          omega
      · have := ih k
        simp only [countB_cons] at *
        push_cast at *
        split at * <;> omega

theorem Untouched.refl (q : NodeState → Bool) (l : List NodeState) :
    Untouched q l l :=
  ⟨rfl, fun _ _ _ _ => rfl⟩

theorem Untouched.trans {q : NodeState → Bool} {l1 l2 l3 : List NodeState}
    (h12 : Untouched q l1 l2) (h23 : Untouched q l2 l3) :
    Untouched q l1 l3 := by
  obtain ⟨hl12, hp12⟩ := h12
  obtain ⟨hl23, hp23⟩ := h23
  refine ⟨hl12.trans hl23, fun i h h3 hq => ?_⟩
  have h2 : i < l2.length := hl12 ▸ h
  have e12 := hp12 i h h2 hq
  have e23 := hp23 i h2 h3 (by rw [e12]; exact hq)
  rw [e23, e12]

theorem untouched_cons {q : NodeState → Bool} {n n' : NodeState}
    {l l' : List NodeState} (hn : q n = true → n' = n)
    (hl : Untouched q l l') : Untouched q (n :: l) (n' :: l') := by
  obtain ⟨hlen, hp⟩ := hl
  refine ⟨by simp [hlen], fun i h h2 hq => ?_⟩
  cases i with
  | zero => simpa using hn (by simpa using hq)
  | succ j =>
    simp only [List.get_cons_succ] at *
    exact hp j _ _ hq

theorem passAll_untouched (f : STF) (it : NodeState → Bool) (src tgt : State)
    (q : NodeState → Bool)
    (hq : ∀ n, q n = true → (it n && n.state == src) = false)
    (ns : List NodeState) : Untouched q ns (passAll f it src tgt ns) := by
  induction ns with
  | nil => exact Untouched.refl q []
  | cons n ns ih =>
    simp only [passAll, List.map_cons]
    refine untouched_cons (fun hqn => ?_) ih
    simp [hq n hqn]

theorem passBudget_untouched (f : STF) (it : NodeState → Bool) (src tgt : State)
    (q : NodeState → Bool)
    (hq : ∀ n, q n = true → (it n && n.state == src) = false)
    (ns : List NodeState) (k : Int) :
    Untouched q ns (passBudget f it src tgt ns k).1 := by
  induction ns generalizing k with
  | nil => exact Untouched.refl q []
  | cons n ns ih =>
    simp only [passBudget]
    split
    · exact Untouched.refl q (n :: ns)
    · split
      · rename_i hcond
        split
        · refine untouched_cons (fun hqn => ?_) (ih (k - 1))
          rw [hq n hqn] at hcond
          exact absurd hcond (by simp)
        · exact untouched_cons (fun _ => rfl) (ih k)
      · exact untouched_cons (fun _ => rfl) (ih k)

/-- Every pass of an advance leaves non-iterable nodes in place, and a
pass for source state `src` leaves nodes in other states in place; this
lemma packages the resulting preservation through a whole
`advanceNodes`. -/
theorem advanceNodes_untouched (f : STF) (it : NodeState → Bool)
    (numDesired maxUnavailable maxSurge : Int) (sched : Bool)
    (q : NodeState → Bool)
    (hq1 : ∀ n, q n = true → (it n && n.state == State.dontWantDelete) = false)
    (hq2 : ∀ n, q n = true → (it n && n.state == State.detached) = false)
    (hq3 : ∀ n, q n = true → (it n && n.state == State.wantDelete) = false)
    (hq4 : ∀ n, q n = true → (it n && n.state == State.readyToDelete) = false)
    (ns0 : List NodeState) :
    Untouched q ns0 (advanceNodes f it numDesired maxUnavailable maxSurge sched ns0) := by
  unfold advanceNodes afterWantPass afterReadyPasses afterDetachPass
  by_cases hs : sched = true
  · simp only [hs, if_true]
    exact ((((passAll_untouched f it _ _ q hq1 ns0).trans
      (passBudget_untouched f it _ _ q hq2 _ _)).trans
      (passBudget_untouched f it _ _ q hq3 _ _)).trans
      (passAll_untouched f it _ _ q hq4 _)).trans
      (passBudget_untouched f it _ _ q hq3 _ _)
  · simp only [hs, if_false]
    exact ((passAll_untouched f it _ _ q hq1 ns0).trans
      (passBudget_untouched f it _ _ q hq2 _ _)).trans
      (passAll_untouched f it _ _ q hq4 _)

theorem stateCount_S (ns : List NodeState) :
    stateCount [.detached, .readyToDelete, .deleting] ns = countB inS ns := rfl

theorem stateCount_R (ns : List NodeState) :
    stateCount [.readyToDelete, .deleting] ns = countB inR ns := rfl

theorem passBudget_nonpos (f : STF) (it : NodeState → Bool) (src tgt : State)
    (ns : List NodeState) (k : Int) (h : k ≤ 0) :
    passBudget f it src tgt ns k = (ns, k) := by
  cases ns with
  | nil => rfl
  | cons n ns => simp [passBudget, h]

theorem afterReadyPasses_length (f : STF) (it : NodeState → Bool) (sched : Bool)
    (ns : List NodeState) (k : Int) :
    (afterReadyPasses f it sched ns k).1.length = ns.length := by
  unfold afterReadyPasses
  split <;> simp [passBudget_length]

/-- Through both admission passes, each unit of growth of a counted set
containing ReadyToDelete but not the source states consumes one unit of
the shared budget. -/
theorem afterReadyPasses_countB_le (f : STF) (it : NodeState → Bool) (sched : Bool)
    (c : State → Bool) (hd : c .detached = false) (hw : c .wantDelete = false)
    (hr : c .readyToDelete = true) (ns : List NodeState) (k : Int) :
    (countB c (afterReadyPasses f it sched ns k).1 : Int) ≤ countB c ns + max 0 k := by
  unfold afterReadyPasses
  have h2 := countB_passBudget_add f it .detached .readyToDelete c hd hr ns k
  have h2le := passBudget_k_le f it .detached .readyToDelete ns k
  split
  · have h3 := countB_passBudget_add f it .wantDelete .readyToDelete c hw hr
      (passBudget f it .detached .readyToDelete ns k).1
      (passBudget f it .detached .readyToDelete ns k).2
    rcases le_or_lt k 0 with hk | hk
    · rw [passBudget_nonpos f it .detached .readyToDelete ns k hk] at *
      rw [passBudget_nonpos f it .wantDelete .readyToDelete ns k hk] at *
      omega
    · have h2n := passBudget_k_nonneg f it .detached .readyToDelete ns k (by omega)
      have h3n := passBudget_k_nonneg f it .wantDelete .readyToDelete
        (passBudget f it .detached .readyToDelete ns k).1
        (passBudget f it .detached .readyToDelete ns k).2 h2n
      omega
  · rcases le_or_lt k 0 with hk | hk
    · rw [passBudget_nonpos f it .detached .readyToDelete ns k hk] at h2 ⊢
      dsimp only at h2 ⊢
      omega
    · have h2n := passBudget_k_nonneg f it .detached .readyToDelete ns k (by omega)
      omega

/-- The surge-set count is unchanged by the Detached → ReadyToDelete pass
and grows by at most `max 0 k` through the WantDelete → ReadyToDelete
pass. -/
theorem afterReadyPasses_countS_le (f : STF) (it : NodeState → Bool) (sched : Bool)
    (ns : List NodeState) (k : Int) :
    (countB inS (afterReadyPasses f it sched ns k).1 : Int) ≤ countB inS ns + max 0 k := by
  unfold afterReadyPasses
  have h2 := countB_passBudget_eq f it .detached .readyToDelete inS rfl ns k
  have h2le := passBudget_k_le f it .detached .readyToDelete ns k
  split
  · have h3 := countB_passBudget_add f it .wantDelete .readyToDelete inS rfl rfl
      (passBudget f it .detached .readyToDelete ns k).1
      (passBudget f it .detached .readyToDelete ns k).2
    rcases le_or_lt k 0 with hk | hk
    · rw [passBudget_nonpos f it .detached .readyToDelete ns k hk] at *
      rw [passBudget_nonpos f it .wantDelete .readyToDelete ns k hk] at *
      omega
    · have h2n := passBudget_k_nonneg f it .detached .readyToDelete ns k (by omega)
      have h3n := passBudget_k_nonneg f it .wantDelete .readyToDelete
        (passBudget f it .detached .readyToDelete ns k).1
        (passBudget f it .detached .readyToDelete ns k).2 h2n
      omega
  · omega

/-- The detach pass keeps the surge-set count at or below the larger of
its pre-pass value and `maxSurge`. -/
theorem afterDetachPass_countS_le (f : STF) (it : NodeState → Bool) (sched : Bool)
    (maxSurge : Int) (ns : List NodeState) :
    (countB inS (afterDetachPass f it sched maxSurge ns) : Int)
      ≤ max maxSurge (countB inS ns) := by
  unfold afterDetachPass
  split
  · have hadd := countB_passBudget_add f it .wantDelete .detached inS rfl rfl
      ns (detachBudget maxSurge ns)
    have hnn : (0 : Int) ≤ detachBudget maxSurge ns := le_max_left _ _
    have hkn := passBudget_k_nonneg f it .wantDelete .detached ns (detachBudget maxSurge ns) hnn
    have hdb : detachBudget maxSurge ns
        = max 0 (maxSurge - (countB inS ns : Int)) := by
      unfold detachBudget
      rw [stateCount_S]
    rcases max_cases (0 : Int) (maxSurge - (countB inS ns : Int)) with ⟨he, hc⟩ | ⟨he, hc⟩ <;>
      rw [he] at hdb <;>
      rcases max_cases maxSurge ((countB inS ns : Int)) with ⟨he2, hc2⟩ | ⟨he2, hc2⟩ <;>
      rw [he2] <;> omega
  · omega

/-- The detach pass does not change the deletion-in-flight count. -/
theorem afterDetachPass_countR (f : STF) (it : NodeState → Bool) (sched : Bool)
    (maxSurge : Int) (ns : List NodeState) :
    countB inR (afterDetachPass f it sched maxSurge ns) = countB inR ns := by
  unfold afterDetachPass
  split
  · exact countB_passBudget_eq f it .wantDelete .detached inR rfl ns _
  · rfl

theorem afterDetachPass_length (f : STF) (it : NodeState → Bool) (sched : Bool)
    (maxSurge : Int) (ns : List NodeState) :
    (afterDetachPass f it sched maxSurge ns).length = ns.length := by
  unfold afterDetachPass
  split <;> simp [passBudget_length]

theorem advanceNodes_length (f : STF) (it : NodeState → Bool)
    (numDesired maxUnavailable maxSurge : Int) (sched : Bool)
    (ns0 : List NodeState) :
    (advanceNodes f it numDesired maxUnavailable maxSurge sched ns0).length
      = ns0.length := by
  unfold advanceNodes
  rw [afterDetachPass_length, passAll_length, afterReadyPasses_length]
  exact passAll_length f it _ _ ns0

/-- The deletion budget of `Group.Advance` is computed after the want
pass, but the want pass changes neither the size nor the
deletion-in-flight count. -/
theorem deletionBudget_afterWantPass (f : STF) (it : NodeState → Bool)
    (numDesired maxUnavailable : Int) (ns0 : List NodeState) :
    deletionBudget numDesired maxUnavailable (afterWantPass f it ns0)
      = deletionBudget numDesired maxUnavailable ns0 := by
  unfold deletionBudget afterWantPass
  rw [passAll_length, stateCount_R, stateCount_R,
    countB_passAll f it .dontWantDelete .wantDelete inR rfl ns0]

/-- Master bound for the surge set: one advance leaves
`count({Detached, ReadyToDelete, Deleting})` at or below the larger of
`maxSurge` and the initial count plus the (clamped) deletion budget. -/
theorem advanceNodes_surge_le (f : STF) (it : NodeState → Bool)
    (numDesired maxUnavailable maxSurge : Int) (sched : Bool)
    (ns0 : List NodeState) :
    (countB inS (advanceNodes f it numDesired maxUnavailable maxSurge sched ns0) : Int)
      ≤ max maxSurge ((countB inS ns0 : Int)
          + max 0 (deletionBudget numDesired maxUnavailable ns0)) := by
  unfold advanceNodes
  have hbudget := deletionBudget_afterWantPass f it numDesired maxUnavailable ns0
  have h1 : countB inS (afterWantPass f it ns0) = countB inS ns0 := by
    unfold afterWantPass
    exact countB_passAll f it .dontWantDelete .wantDelete inS rfl ns0
  have h23 := afterReadyPasses_countS_le f it sched (afterWantPass f it ns0)
    (deletionBudget numDesired maxUnavailable (afterWantPass f it ns0))
  have h4 : countB inS (passAll f it .readyToDelete .deleting
      (afterReadyPasses f it sched (afterWantPass f it ns0)
        (deletionBudget numDesired maxUnavailable (afterWantPass f it ns0))).1)
      = countB inS (afterReadyPasses f it sched (afterWantPass f it ns0)
        (deletionBudget numDesired maxUnavailable (afterWantPass f it ns0))).1 :=
    countB_passAll f it .readyToDelete .deleting inS rfl _
  have h5 := afterDetachPass_countS_le f it sched maxSurge
    (passAll f it .readyToDelete .deleting
      (afterReadyPasses f it sched (afterWantPass f it ns0)
        (deletionBudget numDesired maxUnavailable (afterWantPass f it ns0))).1)
  omega

/-- Master bound for the deletion-in-flight set: one advance grows
`count({ReadyToDelete, Deleting})` by at most the clamped deletion
budget. -/
theorem advanceNodes_inflight_le (f : STF) (it : NodeState → Bool)
    (numDesired maxUnavailable maxSurge : Int) (sched : Bool)
    (ns0 : List NodeState) :
    (countB inR (advanceNodes f it numDesired maxUnavailable maxSurge sched ns0) : Int)
      ≤ (countB inR ns0 : Int)
          + max 0 (deletionBudget numDesired maxUnavailable ns0) := by
  unfold advanceNodes
  have hbudget := deletionBudget_afterWantPass f it numDesired maxUnavailable ns0
  have h1 : countB inR (afterWantPass f it ns0) = countB inR ns0 := by
    unfold afterWantPass
    exact countB_passAll f it .dontWantDelete .wantDelete inR rfl ns0
  have h23 := afterReadyPasses_countB_le f it sched inR rfl rfl rfl
    (afterWantPass f it ns0)
    (deletionBudget numDesired maxUnavailable (afterWantPass f it ns0))
  have h4 : countB inR (passAll f it .readyToDelete .deleting
      (afterReadyPasses f it sched (afterWantPass f it ns0)
        (deletionBudget numDesired maxUnavailable (afterWantPass f it ns0))).1)
      = countB inR (afterReadyPasses f it sched (afterWantPass f it ns0)
        (deletionBudget numDesired maxUnavailable (afterWantPass f it ns0))).1 :=
    countB_passAll f it .readyToDelete .deleting inR rfl _
  have h5 := afterDetachPass_countR f it sched maxSurge
    (passAll f it .readyToDelete .deleting
      (afterReadyPasses f it sched (afterWantPass f it ns0)
        (deletionBudget numDesired maxUnavailable (afterWantPass f it ns0))).1)
  omega

theorem iterable_of_neverDelete (g : Group) (n : NodeState)
    (h : n.neverDelete = true) : g.iterable n = false := by
  unfold Group.iterable
  split <;> simp [h]

theorem iterable_of_not_priority (g : Group) (n : NodeState)
    (hact : g.priorityActive = true)
    (h : g.priorityNodes.contains n.name = false) : g.iterable n = false := by
  unfold Group.iterable
  rw [if_pos hact, h]
  rfl

/-- Variant of `advanceNodes_untouched` for ticks whose schedule forbids
deletion: the two WantDelete-sourced passes do not run. -/
theorem advanceNodes_untouched_noSched (f : STF) (it : NodeState → Bool)
    (numDesired maxUnavailable maxSurge : Int)
    (q : NodeState → Bool)
    (hq1 : ∀ n, q n = true → (it n && n.state == State.dontWantDelete) = false)
    (hq2 : ∀ n, q n = true → (it n && n.state == State.detached) = false)
    (hq4 : ∀ n, q n = true → (it n && n.state == State.readyToDelete) = false)
    (ns0 : List NodeState) :
    Untouched q ns0 (advanceNodes f it numDesired maxUnavailable maxSurge false ns0) := by
  unfold advanceNodes afterWantPass afterReadyPasses afterDetachPass
  simp only [Bool.false_eq_true, if_false]
  exact ((passAll_untouched f it _ _ q hq1 ns0).trans
    (passBudget_untouched f it _ _ q hq2 _ _)).trans
    (passAll_untouched f it _ _ q hq4 _)

theorem bool_false_of_not_true {b : Bool} (h : (!b) = true) : b = false := by
  cases b
  · rfl
  · cases h

/-- C1, counterexample: a real group (three surplus WantDelete nodes,
desired size 1, maxSurge 1, maxUnavailable 0, all effector calls
succeeding) finishes `Group.Advance` with two nodes in
{Detached, ReadyToDelete, Deleting} — more than `maxSurge`.  The
WantDelete → ReadyToDelete admissions are capped by the unavailability
slack, not by the surge budget. -/
theorem c1_counterexample :
    surgeCxGroup.isReal = true ∧ surgeCxGroup.maxSurge = 1 ∧
    ¬ ((stateCount [.detached, .readyToDelete, .deleting]
        (surgeCxGroup.advance fTrue now0).nodes : Int) ≤ surgeCxGroup.maxSurge) := by
  decide

/-- C1 (amended): after `Group.Advance` the number of nodes in
{Detached, ReadyToDelete, Deleting} is at most the larger of
`maxSurge(g)` and the pre-advance count plus the clamped deletion slack
`max 0 (size − count({ReadyToDelete, Deleting}) − numDesired +
maxUnavailable)`; the surge budget itself caps only the
WantDelete → Detached step. -/
theorem c1_amended_surge_bound (f : STF) (now : Instant) (g : Group) :
    (stateCount [.detached, .readyToDelete, .deleting] (g.advance f now).nodes : Int)
      ≤ max g.maxSurge
          ((stateCount [.detached, .readyToDelete, .deleting] g.nodes : Int)
            + max 0 (deletionBudget g.numDesired g.maxUnavailable g.nodes)) := by
  have h := advanceNodes_surge_le f g.iterable g.numDesired g.maxUnavailable
    g.maxSurge (g.scheduleAllows now) g.nodes
  rw [stateCount_S, stateCount_S]
  exact h

/-- C3, counterexample: a real group that is still scaling up (one node,
desired size 10, maxUnavailable 0) violates
`size − count({ReadyToDelete, Deleting}) ≥ numDesired − maxUnavailable`
after `Group.Advance` even though no node moved at all. -/
theorem c3_counterexample :
    underProvisionedGroup.isReal = true ∧
    ¬ (underProvisionedGroup.numDesired - underProvisionedGroup.maxUnavailable ≤
        ((underProvisionedGroup.advance fFalse now0).nodes.length : Int)
          - (stateCount [.readyToDelete, .deleting]
              (underProvisionedGroup.advance fFalse now0).nodes : Int)) := by
  decide

/-- C3 (amended): `Group.Advance` accepts at most
`max 0 canDelete` transitions into ReadyToDelete, with
`canDelete = size − count({ReadyToDelete, Deleting}) − numDesired +
maxUnavailable` computed before any admission and decremented per
acceptance (Detached nodes first); consequently
`size − count({ReadyToDelete, Deleting}) ≥ numDesired − maxUnavailable`
holds after the advance whenever it held before it. -/
theorem c3_amended_unavailability (f : STF) (now : Instant) (g : Group)
    (h : g.numDesired - g.maxUnavailable ≤
      (g.nodes.length : Int) - (stateCount [.readyToDelete, .deleting] g.nodes : Int)) :
    (g.numDesired - g.maxUnavailable ≤
      ((g.advance f now).nodes.length : Int)
        - (stateCount [.readyToDelete, .deleting] (g.advance f now).nodes : Int))
    ∧ ((stateCount [.readyToDelete, .deleting] (g.advance f now).nodes : Int)
        ≤ (stateCount [.readyToDelete, .deleting] g.nodes : Int)
          + max 0 (deletionBudget g.numDesired g.maxUnavailable g.nodes)) := by
  have hin := advanceNodes_inflight_le f g.iterable g.numDesired g.maxUnavailable
    g.maxSurge (g.scheduleAllows now) g.nodes
  have hlen := advanceNodes_length f g.iterable g.numDesired g.maxUnavailable
    g.maxSurge (g.scheduleAllows now) g.nodes
  have hdb : deletionBudget g.numDesired g.maxUnavailable g.nodes
      = (g.nodes.length : Int) - (countB inR g.nodes : Int)
        - g.numDesired + g.maxUnavailable := by
    unfold deletionBudget
    rw [stateCount_R]
  simp only [stateCount_R] at h ⊢
  constructor
  · show g.numDesired - g.maxUnavailable ≤
      ((advanceNodes f g.iterable g.numDesired g.maxUnavailable g.maxSurge
        (g.scheduleAllows now) g.nodes).length : Int)
        - (countB inR (advanceNodes f g.iterable g.numDesired g.maxUnavailable
            g.maxSurge (g.scheduleAllows now) g.nodes) : Int)
    omega
  · show (countB inR (advanceNodes f g.iterable g.numDesired g.maxUnavailable
        g.maxSurge (g.scheduleAllows now) g.nodes) : Int) ≤ _
    omega

/-- Witness for C3 (amended) at a concrete group satisfying the
precondition. -/
theorem c3_amended_witness :
    (surgeCxGroup.numDesired - surgeCxGroup.maxUnavailable ≤
      ((surgeCxGroup.advance fTrue now0).nodes.length : Int)
        - (stateCount [.readyToDelete, .deleting] (surgeCxGroup.advance fTrue now0).nodes : Int))
    ∧ ((stateCount [.readyToDelete, .deleting] (surgeCxGroup.advance fTrue now0).nodes : Int)
        ≤ (stateCount [.readyToDelete, .deleting] surgeCxGroup.nodes : Int)
          + max 0 (deletionBudget surgeCxGroup.numDesired surgeCxGroup.maxUnavailable
              surgeCxGroup.nodes)) :=
  c3_amended_unavailability fTrue now0 surgeCxGroup (by decide)

/-- C4, counterexample: a node adopted from the snapshot in state
Detached and marked neverDelete this tick is still observed in Detached
after `Group.Advance` — a neverDelete node can be seen past
DontWantDelete. -/
theorem c4_counterexample :
    (neverDeleteCxGroup.advance fTrue now0).nodes.any
      (fun n => n.neverDelete && !(n.state == State.dontWantDelete)) = true := by
  decide

/-- C4 (amended): `Group.Advance` never iterates a neverDelete node, so
its record (state included) is left exactly in place by every advance;
it can still be observed past DontWantDelete when it entered that state
before being marked neverDelete. -/
theorem c4_amended_neverDelete_frozen (f : STF) (now : Instant) (g : Group) :
    Untouched (fun n => n.neverDelete) g.nodes (g.advance f now).nodes := by
  show Untouched _ g.nodes (advanceNodes f g.iterable g.numDesired g.maxUnavailable
    g.maxSurge (g.scheduleAllows now) g.nodes)
  apply advanceNodes_untouched
  all_goals intro n hn
  all_goals rw [iterable_of_neverDelete g n hn]
  all_goals rfl

/-- C5, counterexample: with the non-empty priority set {"ghost"} whose
only name refers to no present node, `iterateNodes` falls back to every
node, and the non-priority node "n1" changes state during the advance
(it reaches Detached within the tick). -/
theorem c5_counterexample :
    ghostPriorityGroup.priorityNodes = ["ghost"] ∧
    ghostPriorityGroup.nodes.map NodeState.state = [State.dontWantDelete] ∧
    (ghostPriorityGroup.advance fTrue now0).nodes.map NodeState.state
      = [State.detached] := by
  decide

/-- C5 (amended): whenever at least one priority name refers to a
present, non-neverDelete node, only nodes named in `priorityNodes`
change state during the advance, and the advance prunes the set to
exactly the names borne by present non-neverDelete nodes; when every
priority name is stale the iteration falls back to all non-neverDelete
nodes. -/
theorem c5_amended_priority_isolation (f : STF) (now : Instant) (g : Group)
    (hact : g.priorityActive = true) :
    Untouched (fun n => !(g.priorityNodes.contains n.name)) g.nodes
      (g.advance f now).nodes
    ∧ ∀ name, name ∈ (g.advance f now).priorityNodes ↔
        (name ∈ g.priorityNodes ∧ ∃ n ∈ g.nodes, n.name = name ∧ n.neverDelete = false) := by
  constructor
  · show Untouched _ g.nodes (advanceNodes f g.iterable g.numDesired g.maxUnavailable
      g.maxSurge (g.scheduleAllows now) g.nodes)
    apply advanceNodes_untouched
    all_goals intro n hn
    all_goals rw [iterable_of_not_priority g n hact (bool_false_of_not_true hn)]
    all_goals rfl
  · intro name
    show name ∈ prunePriority g ↔ _
    unfold prunePriority
    simp [List.mem_filter, List.any_eq_true, Bool.and_eq_true, beq_iff_eq]

/-- Witness for C5 (amended) at a group with a live priority node. -/
theorem c5_amended_witness :
    (Untouched (fun n => !(selfPriorityGroup.priorityNodes.contains n.name))
      selfPriorityGroup.nodes (selfPriorityGroup.advance fTrue now0).nodes
    ∧ ∀ name, name ∈ (selfPriorityGroup.advance fTrue now0).priorityNodes ↔
        (name ∈ selfPriorityGroup.priorityNodes ∧
          ∃ n ∈ selfPriorityGroup.nodes, n.name = name ∧ n.neverDelete = false)) :=
  c5_amended_priority_isolation fTrue now0 selfPriorityGroup (by decide)

/-- C7: while a group's schedule does not match the current UTC time,
no WantDelete node moves at all during the advance (neither
WantDelete → Detached nor WantDelete → ReadyToDelete can fire, for any
effector); the Detached → ReadyToDelete edge is not gated — in the
concrete gated group, the Detached node still reaches ReadyToDelete. -/
theorem c7_schedule_gates_want_edges (f : STF) (now : Instant) (g : Group)
    (s : Schedule) (h1 : g.deletionSchedule = some s)
    (h2 : s.Matches now = false) :
    Untouched (fun n => n.state == State.wantDelete) g.nodes (g.advance f now).nodes
    ∧ (scheduleCxGroup.advance fDetachedReady now0).nodes.map NodeState.state
        = [State.readyToDelete, State.wantDelete] := by
  constructor
  · have hsch : g.scheduleAllows now = false := by
      unfold Group.scheduleAllows
      rw [h1]
      exact h2
    show Untouched _ g.nodes (advanceNodes f g.iterable g.numDesired g.maxUnavailable
      g.maxSurge (g.scheduleAllows now) g.nodes)
    rw [hsch]
    apply advanceNodes_untouched_noSched
    all_goals intro n hn
    all_goals rw [eq_of_beq hn]
    all_goals simp
  · decide

/-- Witness for C7 at the concrete gated group. -/
theorem c7_witness :
    (Untouched (fun n => n.state == State.wantDelete) scheduleCxGroup.nodes
      (scheduleCxGroup.advance fDetachedReady now0).nodes
    ∧ (scheduleCxGroup.advance fDetachedReady now0).nodes.map NodeState.state
        = [State.readyToDelete, State.wantDelete]) :=
  c7_schedule_gates_want_edges fDetachedReady now0 scheduleCxGroup
    scheduleWeekendNights rfl (by decide)

/-- C6: `dayMatches` requires both the day-of-month and day-of-week bits
when either field was written with a star, and either bit otherwise; on
the modelled schedule `* 18-20 * * 0,6`, `Matches` rejects Friday
2021-03-05 18:00 UTC, accepts Saturday 2021-03-06 and Sunday 2021-03-07
18:00 UTC, and rejects Monday 2021-03-08 18:00 UTC. -/
theorem c6_cron_day_predicate :
    (∀ (s : Schedule) (t : Instant),
      dayMatches s t =
        if (s.dom &&& starBit) != 0 || (s.dow &&& starBit) != 0 then
          ((2 ^ t.day &&& s.dom) != 0)
            && ((2 ^ weekday t.year t.month t.day &&& s.dow) != 0)
        else
          ((2 ^ t.day &&& s.dom) != 0)
            || ((2 ^ weekday t.year t.month t.day &&& s.dow) != 0))
    ∧ scheduleWeekendNights.Matches ⟨2021, 3, 5, 18, 0, 0⟩ = false
    ∧ scheduleWeekendNights.Matches ⟨2021, 3, 6, 18, 0, 0⟩ = true
    ∧ scheduleWeekendNights.Matches ⟨2021, 3, 7, 18, 0, 0⟩ = true
    ∧ scheduleWeekendNights.Matches ⟨2021, 3, 8, 18, 0, 0⟩ = false := by
  refine ⟨fun s t => rfl, by decide, by decide, by decide, by decide⟩

theorem string_data_append (a b : String) : (a ++ b).data = a.data ++ b.data := rfl

theorem ig_key_ne_master (l : String) : ("___ig___" ++ l) ≠ "___master___" := by
  intro h
  have h2 : ("___ig___" ++ l).data = "___master___".data := congrArg String.data h
  rw [string_data_append] at h2
  simp at h2

/-- C2: `nodeGroupKey` never produces the `___master___` key — a node
carrying the control-plane role label but no instance-group label is
assigned `___nogroup___`, whose fresh group record gets the sentinel
desired size, not 3.  (The `___master___` branch of `pollDeletions` is
unreachable and the `k8sRoleLabel` constant is unused.) -/
theorem c2_no_master_key :
    (∀ (opts : Opts) (node : K8sNode),
      (nodeGroupKey opts node == "___master___") = false)
    ∧ (∀ (opts : Opts) (node : K8sNode),
        nodeGroupKey opts node =
          if node.label opts.instanceGroupLabel = "" then "___nogroup___"
          else "___ig___" ++ node.label opts.instanceGroupLabel)
    ∧ masterNode.label "kubernetes.io/role" = "master"
    ∧ masterNode.label opts0.instanceGroupLabel = ""
    ∧ nodeGroupKey opts0 masterNode = "___nogroup___"
    ∧ (mkNewGroup opts0 masterNode (nodeGroupKey opts0 masterNode)).numDesired
        = veryHighFalseDesiredSize := by
  refine ⟨?_, fun opts node => rfl, by decide, by decide, by decide, by decide⟩
  intro opts node
  unfold nodeGroupKey
  split
  · rfl
  · exact beq_eq_false_iff_ne.mpr (ig_key_ne_master _)

theorem ageTriggered_eq (opts : Opts) (now : Int) (node : K8sNode) :
    deletionAgeTriggered opts now node =
      (match opts.deletionAge (node.label opts.instanceGroupLabel) with
        | some age => decide (now - node.creationTimestamp > age +
            Int.tdiv (((fnv1a32 node.name % 100 : Nat) : Int)
              * ((opts.deletionAgeJitter (node.label opts.instanceGroupLabel)).getD 0)) 100)
        | none => false) := by
  unfold deletionAgeTriggered
  cases hA : opts.deletionAge (node.label opts.instanceGroupLabel) with
  | none => rfl
  | some age =>
    cases hJ : opts.deletionAgeJitter (node.label opts.instanceGroupLabel) with
    | none =>
      simp only [Option.getD_none, mul_zero, Int.zero_tdiv]
      exact decide_eq_decide.mpr (by omega)
    | some j =>
      simp only [Option.getD_some]
      exact decide_eq_decide.mpr (by omega)

theorem launch_branch_eq (b : Bool) (r : Except Unit Bool) (x y : Bool × String) :
    (if b then (match r with | .ok true => x | _ => y) else y)
      = if b && (r.toOption.getD false) then x else y := by
  cases b
  · simp
  · cases r with
    | error e => simp [Except.toOption]
    | ok rb => cases rb <;> simp [Except.toOption]

/-- C8: `WantToDelete` checks the request-deletion label first, then the
age policy `now − creationTimestamp > deletionAge + jitter` with
`jitter = (fnv1a32(name) mod 100) · deletionAgeJitter / 100`, then the
provider's outdated-template answer with errors treated as `false`;
otherwise it reports no deletion.  Concrete checks: at exactly the
threshold the node is kept; one nanosecond past it, `too_old`; an
out-of-date template yields `configuration_changed` (but a provider
error does not); the label wins over everything. -/
theorem c8_policy_cascade :
    (∀ (opts : Opts) (outdated : K8sNode → Except Unit Bool) (now : Int) (node : K8sNode),
      wantToDelete opts outdated now node =
        if opts.requestDeletionLabel != "" &&
            node.labels.any (fun p => p.1 == opts.requestDeletionLabel) then
          (true, "has_deletion_label")
        else if (match opts.deletionAge (node.label opts.instanceGroupLabel) with
          | some age => decide (now - node.creationTimestamp > age +
              Int.tdiv (((fnv1a32 node.name % 100 : Nat) : Int)
                * ((opts.deletionAgeJitter (node.label opts.instanceGroupLabel)).getD 0)) 100)
          | none => false) then (true, "too_old")
        else if opts.deleteOldLaunchConfig (node.label opts.instanceGroupLabel) &&
            ((outdated node).toOption.getD false) then
          (true, "configuration_changed")
        else (false, ""))
    ∧ fnv1a32 "node-1" % 100 = 87
    ∧ wantToDelete optsC8 (fun _ => .error ()) (86400000000000 + 87) agedNode = (false, "")
    ∧ wantToDelete optsC8 (fun _ => .error ()) (86400000000000 + 88) agedNode = (true, "too_old")
    ∧ wantToDelete optsC8 (fun _ => .ok true) 0 agedNode = (true, "configuration_changed")
    ∧ wantToDelete optsC8 (fun _ => .ok false) 0 agedNode = (false, "")
    ∧ wantToDelete optsC8 (fun _ => .ok true) 86400000000000000 labeledNode
        = (true, "has_deletion_label") := by
  refine ⟨?_, by decide, by decide, by decide, by decide, by decide, by decide⟩
  intro opts outdated now node
  unfold wantToDelete hasRequestLabel
  rw [ageTriggered_eq, launch_branch_eq]

theorem ingestOne_preserves (opts : Opts) (snap : List (String × State))
    (gs : List Group) (node : K8sNode) (g : Group) (hg : g ∈ gs)
    (r : NodeState) (hr : r ∈ g.nodes) :
    ∃ g' ∈ ingestOne opts snap gs node, g'.key = g.key ∧ r ∈ g'.nodes := by
  unfold ingestOne
  have hg1 : g ∈ (if hasGroup gs (nodeGroupKey opts node) then gs
      else gs ++ [mkNewGroup opts node (nodeGroupKey opts node)]) := by
    split
    · exact hg
    · exact List.mem_append_left _ hg
  refine ⟨_, List.mem_map_of_mem _ hg1, ?_⟩
  split
  · exact ⟨rfl, List.mem_append_left _ hr⟩
  · exact ⟨rfl, hr⟩

theorem ingestOne_creates (opts : Opts) (snap : List (String × State))
    (gs : List Group) (node : K8sNode)
    (hfresh : ∀ g ∈ gs, ∀ r ∈ g.nodes, r.name ≠ node.name) :
    ∃ g' ∈ ingestOne opts snap gs node,
      g'.key = nodeGroupKey opts node ∧
      (⟨node.name, adoptState snap node.name, false⟩ : NodeState) ∈ g'.nodes := by
  unfold ingestOne
  by_cases hG : hasGroup gs (nodeGroupKey opts node) = true
  · obtain ⟨g, hg, hkey⟩ : ∃ g ∈ gs, g.key = nodeGroupKey opts node := by
      unfold hasGroup at hG
      simpa [List.any_eq_true, beq_iff_eq] using hG
    have hnr : hasNodeRecord g node.name = false := by
      unfold hasNodeRecord
      simp only [List.any_eq_false, Bool.not_eq_true, beq_eq_false_iff_ne]
      exact fun r hr => hfresh g hg r hr
    refine ⟨_, List.mem_map_of_mem _ (show g ∈ _ by rw [if_pos hG]; exact hg), ?_⟩
    rw [if_pos (show (g.key == nodeGroupKey opts node && !hasNodeRecord g node.name) = true
      by simp [hkey, hnr])]
    exact ⟨hkey, List.mem_append_right _ (List.mem_singleton_self _)⟩
  · refine ⟨_, List.mem_map_of_mem _ (show mkNewGroup opts node (nodeGroupKey opts node) ∈ _ by
      rw [if_neg hG]
      exact List.mem_append_right _ (List.mem_singleton_self _)), ?_⟩
    rw [if_pos (show ((mkNewGroup opts node (nodeGroupKey opts node)).key
        == nodeGroupKey opts node
        && !hasNodeRecord (mkNewGroup opts node (nodeGroupKey opts node)) node.name) = true
      by simp [mkNewGroup, hasNodeRecord])]
    exact ⟨rfl, by simp [mkNewGroup]⟩

theorem ingestOne_names (opts : Opts) (snap : List (String × State))
    (gs : List Group) (node : K8sNode) :
    ∀ g' ∈ ingestOne opts snap gs node, ∀ r ∈ g'.nodes,
      (∃ g ∈ gs, r ∈ g.nodes) ∨ r.name = node.name := by
  unfold ingestOne
  intro g' hg' r hr
  rcases List.mem_map.mp hg' with ⟨g, hgmem, rfl⟩
  have hgsrc : g ∈ gs ∨ g = mkNewGroup opts node (nodeGroupKey opts node) := by
    by_cases hG : hasGroup gs (nodeGroupKey opts node) = true
    · rw [if_pos hG] at hgmem
      exact Or.inl hgmem
    · rw [if_neg hG] at hgmem
      rcases List.mem_append.mp hgmem with h | h
      · exact Or.inl h
      · exact Or.inr (List.mem_singleton.mp h)
  have hbase : r ∈ g.nodes ∨ r.name = node.name := by
    by_cases hc : (g.key == nodeGroupKey opts node && !hasNodeRecord g node.name) = true
    · rw [if_pos hc] at hr
      rcases List.mem_append.mp hr with h | h
      · exact Or.inl h
      · exact Or.inr (by rw [List.mem_singleton.mp h])
    · rw [if_neg hc] at hr
      exact Or.inl hr
  rcases hbase with h | h
  · rcases hgsrc with hga | hgb
    · exact Or.inl ⟨g, hga, h⟩
    · rw [hgb] at h
      simp [mkNewGroup] at h
  · exact Or.inr h

theorem ingest_preserves (opts : Opts) (now : Int) (snap : List (String × State))
    (inventory : List K8sNode) :
    ∀ (gs : List Group), ∀ g ∈ gs, ∀ r ∈ g.nodes,
      ∃ g' ∈ ingest opts now snap gs inventory, g'.key = g.key ∧ r ∈ g'.nodes := by
  induction inventory with
  | nil => exact fun gs g hg r hr => ⟨g, hg, rfl, hr⟩
  | cons v vs ih =>
    intro gs g hg r hr
    show ∃ g' ∈ ingest opts now snap
      (if totallyIgnore opts now v then gs else ingestOne opts snap gs v) vs, _
    by_cases hv : totallyIgnore opts now v = true
    · rw [if_pos hv]
      exact ih gs g hg r hr
    · rw [if_neg hv]
      obtain ⟨g1, hg1, hk1, hr1⟩ := ingestOne_preserves opts snap gs v g hg r hr
      obtain ⟨g2, hg2, hk2, hr2⟩ := ih _ g1 hg1 r hr1
      exact ⟨g2, hg2, hk2.trans hk1, hr2⟩

theorem ingest_names (opts : Opts) (now : Int) (snap : List (String × State))
    (inventory : List K8sNode) :
    ∀ (gs : List Group), ∀ g' ∈ ingest opts now snap gs inventory, ∀ r ∈ g'.nodes,
      (∃ g ∈ gs, r ∈ g.nodes) ∨ r.name ∈ inventory.map K8sNode.name := by
  induction inventory with
  | nil => exact fun gs g' hg' r hr => Or.inl ⟨g', hg', hr⟩
  | cons v vs ih =>
    intro gs g' hg' r hr
    have hg2 : g' ∈ ingest opts now snap
        (if totallyIgnore opts now v then gs else ingestOne opts snap gs v) vs := hg'
    by_cases hv : totallyIgnore opts now v = true
    · rw [if_pos hv] at hg2
      rcases ih gs g' hg2 r hr with h | h
      · exact Or.inl h
      · exact Or.inr (List.mem_cons_of_mem _ h)
    · rw [if_neg hv] at hg2
      rcases ih _ g' hg2 r hr with ⟨g1, hg1, hr1⟩ | h
      · rcases ingestOne_names opts snap gs v g1 hg1 r hr1 with h0 | h0
        · exact Or.inl h0
        · exact Or.inr (by rw [h0]; exact List.mem_cons_self _ _)
      · exact Or.inr (List.mem_cons_of_mem _ h)

theorem purgeAbsent_keeps (names : List String) (gs : List Group)
    (g : Group) (hg : g ∈ gs) (r : NodeState) (hr : r ∈ g.nodes)
    (hn : names.contains r.name = true) :
    ∃ g' ∈ purgeAbsent names gs, g'.key = g.key ∧ r ∈ g'.nodes := by
  unfold purgeAbsent
  exact ⟨_, List.mem_map_of_mem _ hg, rfl, List.mem_filter.mpr ⟨hr, hn⟩⟩

theorem purgeAbsent_only_names (names : List String) (gs : List Group) :
    ∀ g' ∈ purgeAbsent names gs, ∀ r ∈ g'.nodes, names.contains r.name = true := by
  unfold purgeAbsent
  intro g' hg' r hr
  rcases List.mem_map.mp hg' with ⟨g, _, rfl⟩
  exact (List.mem_filter.mp hr).2

/-- C9: during one tick's node bookkeeping, a node of the inventory that
is not totally ignored and has no in-memory record yet gets a record in
its group, whose state is the snapshot state under its name if any and
DontWantDelete otherwise; and after the purge every surviving in-memory
record bears the name of a listed node (so a record for a vanished node
is deleted). -/
theorem c9_adoption_and_purge (opts : Opts) (now : Int)
    (snapshot : List (String × State)) (gs : List Group)
    (inventory : List K8sNode) (nd : K8sNode)
    (hmem : nd ∈ inventory) (hign : totallyIgnore opts now nd = false)
    (hnodup : (inventory.map K8sNode.name).Nodup)
    (hfresh : ∀ g ∈ gs, ∀ r ∈ g.nodes, r.name ≠ nd.name) :
    (∃ g ∈ syncNodes opts now snapshot gs inventory,
        g.key = nodeGroupKey opts nd ∧
        (⟨nd.name, adoptState snapshot nd.name, false⟩ : NodeState) ∈ g.nodes)
    ∧ ∀ g ∈ syncNodes opts now snapshot gs inventory, ∀ r ∈ g.nodes,
        r.name ∈ inventory.map K8sNode.name := by
  have hnames : ∀ x, x ∈ allNodeNames opts now inventory → x ∈ inventory.map K8sNode.name := by
    intro x hx
    unfold allNodeNames at hx
    rcases List.mem_map.mp hx with ⟨n, hn, rfl⟩
    exact List.mem_map_of_mem _ (List.mem_of_mem_filter hn)
  constructor
  · obtain ⟨l1, l2, rfl⟩ := List.append_of_mem hmem
    have hnd_not_l1 : nd.name ∉ l1.map K8sNode.name := by
      intro hin
      rw [List.map_append, List.map_cons] at hnodup
      exact (List.disjoint_of_nodup_append hnodup) hin (List.mem_cons_self _ _)
    have hfreshA : ∀ g ∈ ingest opts now snapshot gs l1, ∀ r ∈ g.nodes,
        r.name ≠ nd.name := by
      intro g hg r hr heq
      rcases ingest_names opts now snapshot l1 gs g hg r hr with ⟨g0, hg0, hr0⟩ | hm
      · exact hfresh g0 hg0 r hr0 heq
      · rw [heq] at hm
        exact hnd_not_l1 hm
    have hsplit : ingest opts now snapshot gs (l1 ++ nd :: l2)
        = ingest opts now snapshot
            (ingestOne opts snapshot (ingest opts now snapshot gs l1) nd) l2 := by
      unfold ingest
      rw [List.foldl_append, List.foldl_cons, if_neg (by simp [hign])]
    obtain ⟨gB, hgB, hkB, hrB⟩ :=
      ingestOne_creates opts snapshot (ingest opts now snapshot gs l1) nd hfreshA
    obtain ⟨gC, hgC, hkC, hrC⟩ :=
      ingest_preserves opts now snapshot l2 _ gB hgB _ hrB
    have hcont : (allNodeNames opts now (l1 ++ nd :: l2)).contains nd.name = true := by
      have : nd.name ∈ allNodeNames opts now (l1 ++ nd :: l2) := by
        unfold allNodeNames
        refine List.mem_map_of_mem _ (List.mem_filter.mpr ⟨?_, by simp [hign]⟩)
        exact List.mem_append_right _ (List.mem_cons_self _ _)
      exact List.elem_eq_true_of_mem this
    obtain ⟨gD, hgD, hkD, hrD⟩ := purgeAbsent_keeps _ _ gC hgC _ hrC hcont
    refine ⟨gD, ?_, by rw [hkD, hkC, hkB], hrD⟩
    unfold syncNodes
    rw [hsplit]
    exact hgD
  · intro g hg r hr
    have hc := purgeAbsent_only_names _ _ g hg r hr
    exact hnames _ (by simpa [List.contains] using hc)

/-- Witness for C9: starting from no in-memory state, one tick over the
inventory [n1] with the snapshot {n1 ↦ detached} re-creates n1's record
(in state Detached) inside its group. -/
theorem c9_witness :
    (∃ g ∈ syncNodes opts0 0 snapshot0 [] [readyNode],
        g.key = nodeGroupKey opts0 readyNode ∧
        (⟨readyNode.name, adoptState snapshot0 readyNode.name, false⟩ : NodeState) ∈ g.nodes)
    ∧ ∀ g ∈ syncNodes opts0 0 snapshot0 [] [readyNode], ∀ r ∈ g.nodes,
        r.name ∈ [readyNode].map K8sNode.name :=
  c9_adoption_and_purge opts0 0 snapshot0 [] [readyNode] readyNode
    (List.mem_singleton_self _) (by decide) (by decide)
    (fun g hg => absurd hg (List.not_mem_nil g))

theorem digitsVal_append (l : List Char) (c : Char) :
    digitsVal (l ++ [c]) = 10 * digitsVal l + (c.toNat - 48) := by
  unfold digitsVal
  rw [List.foldl_append]
  rfl

theorem digitChar_spec :
    ∀ d, d < 10 → (digitChar d).isDigit = true ∧ (digitChar d).toNat = 48 + d := by
  decide

theorem natReprL_spec (n : Nat) :
    natReprL n ≠ [] ∧ (natReprL n).all Char.isDigit = true
      ∧ digitsVal (natReprL n) = n := by
  induction n using Nat.strong_induction_on with
  | _ n ih =>
    by_cases h : n < 10
    · rw [natReprL, dif_pos h]
      obtain ⟨hd, ht⟩ := digitChar_spec n h
      refine ⟨by simp, by simp [hd], ?_⟩
      show digitsVal ([] ++ [digitChar n]) = n
      rw [digitsVal_append, ht]
      simp [digitsVal]
    · rw [natReprL, dif_neg h]
      obtain ⟨ih1, ih2, ih3⟩ := ih (n / 10) (Nat.div_lt_self (by omega) (by omega))
      obtain ⟨hd, ht⟩ := digitChar_spec (n % 10) (Nat.mod_lt n (by omega))
      refine ⟨by simp, ?_, ?_⟩
      · rw [List.all_append]
        simp [ih2, hd]
      · rw [digitsVal_append, ih3, ht]
        omega

theorem parseInt64_digits (l : List Char) (h1 : l ≠ [])
    (h2 : l.all Char.isDigit = true) (h3 : digitsVal l ≤ 2 ^ 63 - 1) :
    parseInt64 l = some ((digitsVal l : Int)) := by
  cases l with
  | nil => exact absurd rfl h1
  | cons c cs =>
    have hc : c.isDigit = true := by
      rw [List.all_cons] at h2
      exact (Bool.and_eq_true _ _).mp h2 |>.1
    have hcm : ¬ (c = '-') := by
      intro he
      rw [he] at hc
      exact absurd hc (by decide)
    have hcp : ¬ (c = '+') := by
      intro he
      rw [he] at hc
      exact absurd hc (by decide)
    simp only [parseInt64]
    rw [if_neg hcm, if_neg hcp, if_pos ⟨h2, h3⟩]

theorem takeWhile_all_append (p : Char → Bool) (l : List Char) (c : Char)
    (h : l.all p = true) (hc : p c = false) :
    (l ++ [c]).takeWhile p = l ∧ (l ++ [c]).dropWhile p = [c] := by
  induction l with
  | nil => simp [List.takeWhile, List.dropWhile, hc]
  | cons x xs ih =>
    rw [List.all_cons] at h
    obtain ⟨hx, hxs⟩ := (Bool.and_eq_true _ _).mp h
    obtain ⟨iht, ihd⟩ := ih hxs
    constructor
    · show List.takeWhile p (x :: (xs ++ [c])) = x :: xs
      simp [List.takeWhile_cons, hx, iht]
    · show List.dropWhile p (x :: (xs ++ [c])) = [c]
      simp [List.dropWhile_cons, hx, ihd]

theorem timeParseDuration_digits_h (l : List Char) (h1 : l ≠ [])
    (h2 : l.all Char.isDigit = true)
    (h3 : (digitsVal l : Int) * 3600000000000 ≤ 2 ^ 63 - 1) :
    timeParseDuration (l ++ ['h'])
      = Except.ok ((digitsVal l : Int) * 3600000000000) := by
  cases l with
  | nil => exact absurd rfl h1
  | cons c cs =>
    have hc : c.isDigit = true := by
      rw [List.all_cons] at h2
      exact (Bool.and_eq_true _ _).mp h2 |>.1
    have hcm : ¬ (c = '-') := by
      intro he
      rw [he] at hc
      exact absurd hc (by decide)
    have hcp : ¬ (c = '+') := by
      intro he
      rw [he] at hc
      exact absurd hc (by decide)
    obtain ⟨htake, hdrop⟩ := takeWhile_all_append Char.isDigit (c :: cs) 'h' h2 (by decide)
    have hbq : (c == '-') = false := beq_eq_false_iff_ne.mpr hcm
    show timeParseDuration ((c :: cs) ++ ['h']) = _
    rw [List.cons_append]
    show timePDBody (c == '-') (if c = '-' ∨ c = '+' then cs ++ ['h'] else c :: (cs ++ ['h'])) = _
    rw [if_neg (fun hor => hor.elim hcm hcp), hbq, ← List.cons_append]
    unfold timePDBody
    rw [htake, hdrop]
    rw [if_neg (by simp)]
    show (if (digitsVal (c :: cs) : Int) * 3600000000000 ≤ 2 ^ 63 - 1 then
        if false then Except.ok (-((digitsVal (c :: cs) : Int) * 3600000000000))
        else Except.ok ((digitsVal (c :: cs) : Int) * 3600000000000)
      else Except.error "time: invalid duration") = _
    rw [if_pos h3]
    rfl

/-- C10: `ParseDuration` is not total — on the empty string its first
operation (slicing off the last byte) panics, modelled by `none` — so
callers rely on non-empty arguments; and for a non-empty all-digit
prefix `n` followed by `d` (with `n` days inside the int64 nanosecond
range) it returns n × 24 hours in nanoseconds. -/
theorem c10_parseDuration :
    parseDuration "" = none
    ∧ ∀ (n : Nat), (n : Int) * 86400000000000 ≤ 2 ^ 63 - 1 →
        parseDuration (String.mk (natReprL n ++ ['d']))
          = some (Except.ok ((n : Int) * 86400000000000)) := by
  constructor
  · rfl
  · intro n hn
    obtain ⟨hne, hall, hval⟩ := natReprL_spec n
    show parseDurationAux (natReprL n ++ ['d']) = _
    unfold parseDurationAux
    rw [if_neg (by simp), if_pos (List.getLast?_concat _), List.dropLast_concat]
    have hbound : digitsVal (natReprL n) ≤ 2 ^ 63 - 1 := by
      rw [hval]
      omega
    rw [parseInt64_digits _ hne hall hbound, hval]
    show some (timeParseDuration (intReprL ((n : Int) * 24) ++ ['h'])) = _
    have hrepr : intReprL ((n : Int) * 24) = natReprL (n * 24) := by
      unfold intReprL
      rw [if_neg (by omega)]
      have ht : ((n : Int) * 24).toNat = n * 24 := by omega
      rw [ht]
    rw [hrepr]
    obtain ⟨hne2, hall2, hval2⟩ := natReprL_spec (n * 24)
    have hb2 : (digitsVal (natReprL (n * 24)) : Int) * 3600000000000 ≤ 2 ^ 63 - 1 := by
      rw [hval2]
      push_cast
      omega
    rw [timeParseDuration_digits_h _ hne2 hall2 hb2, hval2]
    have he : ((n * 24 : Nat) : Int) * 3600000000000 = (n : Int) * 86400000000000 := by
      push_cast
      ring
    rw [he]

/-- Witness for C10 at n = 7 days. -/
theorem c10_witness :
    parseDuration "" = none
    ∧ parseDuration (String.mk (natReprL 7 ++ ['d']))
        = some (Except.ok ((7 : Int) * 86400000000000)) :=
  ⟨c10_parseDuration.1, c10_parseDuration.2 7 (by norm_num)⟩

end NodeReaper
